import Mathlib

/-!
# Verification of the math-raiders raid server core

Shallow embedding of `server/src/lib.rs` (spolepaka/readventure,
`src/references/math-raiders`).  Rust `u8`/`u32`/`u64` integers are
modelled as `Nat` with explicit wrapping (`% 2 ^ 64`) or saturation
(`min _ (2 ^ 32 - 1)`) where the source uses wrapping or saturating
operations; timestamps are micros since the unix epoch (`Int`);
Rust `f32` weights in the problem selector are modelled as exact
rationals (`ℚ`); fallible code returns `Option`/`Except`.
-/

namespace MathRaiders

/-- `get_fast_threshold_ms` (lib.rs:36-43): grade-based automaticity
thresholds in milliseconds.  The Rust `match` arms `0`, `1..=3`, `4`, `_`. -/
def get_fast_threshold_ms (grade : Nat) : Nat :=
  if grade = 0 then 3000
  else if grade ≤ 3 then 2000
  else if grade = 4 then 1700
  else 1500

/-- `calculate_damage` (lib.rs:3554-3578).  The crit roll
`ctx.rng().gen_range(0..100)` is passed in explicitly as `critRoll`
(an arbitrary RNG outcome in `[0, 100)`). -/
def calculate_damage (response_ms grade critRoll : Nat) : Nat :=
  let fast_threshold := get_fast_threshold_ms grade
  if response_ms ≤ fast_threshold then
    if critRoll < 15 then 150 else 75
  else if response_ms ≤ fast_threshold + 1000 then 60
  else if response_ms ≤ fast_threshold + 2000 then 45
  else if response_ms ≤ fast_threshold + 3000 then 30
  else if response_ms ≤ fast_threshold + 5000 then 23
  else 15

/-- `estimate_average_damage` (lib.rs:3526-3549): deterministic expected
damage used for HP estimation.  The threshold `match` is inlined in the
Rust source with the same arms as `get_fast_threshold_ms`. -/
def estimate_average_damage (response_ms grade : Nat) : Nat :=
  let fast_threshold :=
    if grade = 0 then 3000
    else if grade ≤ 3 then 2000
    else if grade = 4 then 1700
    else 1500
  if response_ms ≤ fast_threshold then 86
  else if response_ms ≤ fast_threshold + 1000 then 60
  else if response_ms ≤ fast_threshold + 2000 then 45
  else if response_ms ≤ fast_threshold + 3000 then 30
  else if response_ms ≤ fast_threshold + 5000 then 23
  else 15

/-- `AttemptRecord` (lib.rs:621-627); the `timestamp` field is not read by
any modelled function and is elided. -/
structure AttemptRecord where
  time_ms : Nat
  correct : Bool
deriving DecidableEq, Repr

/-- `FactMastery` row (lib.rs:661-690); `id`, `player_id` and `fact_key`
identify the row and are elided from the per-row model. -/
structure FactMastery where
  total_attempts : Nat
  total_correct : Nat
  last_seen : Nat
  avg_response_ms : Nat
  fastest_ms : Nat
  recent_attempts : List AttemptRecord
  mastery_level : Nat
deriving DecidableEq, Repr

/-- `calculate_mastery_level` (lib.rs:3601-3638): classify the last three
entries of `recent_attempts` against the grade threshold. -/
def calculate_mastery_level (fact : FactMastery) (grade : Nat) : Nat :=
  if fact.total_attempts = 0 then 0
  else
    let total := fact.recent_attempts.length
    let start_idx := if total > 3 then total - 3 else 0
    let last_3 := fact.recent_attempts.drop start_idx
    let fast_threshold := get_fast_threshold_ms grade
    let correct_count := (last_3.filter (fun a => a.correct)).length
    let hit_1x_count :=
      (last_3.filter (fun a => a.correct && a.time_ms ≤ fast_threshold)).length
    let hit_2x := last_3.any (fun a => a.correct && a.time_ms ≤ fast_threshold * 2)
    let hit_3x := last_3.any (fun a => a.correct && a.time_ms ≤ fast_threshold * 3)
    if hit_1x_count ≥ 2 then 5
    else if hit_2x then 4
    else if hit_3x then 3
    else if correct_count ≥ 2 then 2
    else if correct_count ≥ 1 then 1
    else 0

/-- `u32::MAX`, the sentinel initial value of `fastest_ms`. -/
def U32_MAX : Nat := 4294967295

/-- `update_fact_mastery` (lib.rs:3809-3907), pure per-row core: given the
existing row for `(player_id, fact_key)` (or `none`), the attempt data and
the player's grade (the Rust defaults to grade 3 when the player row is
missing), produce the updated row.  On the existing-row path the Rust
`checked_mul`/`checked_add` on `u64` cannot overflow because
`avg, count < 2 ^ 32`, so the model computes the rolling average directly;
the final `min` mirrors `.min(u32::MAX as u64) as u32`. -/
def update_fact_mastery (existing : Option FactMastery) (grade : Nat)
    (is_correct : Bool) (response_ms : Nat) (nowMicros : Nat) : FactMastery :=
  match existing with
  | some fact =>
    let fact := { fact with total_attempts := min (fact.total_attempts + 1) U32_MAX }
    let fact :=
      if is_correct then
        let fact := { fact with total_correct := min (fact.total_correct + 1) U32_MAX }
        let fact :=
          if fact.total_correct = 1 then { fact with avg_response_ms := response_ms }
          else
            let count := fact.total_correct - 1
            let total_ms := fact.avg_response_ms * count + response_ms
            { fact with avg_response_ms := min (total_ms / fact.total_correct) U32_MAX }
        if response_ms < fact.fastest_ms then { fact with fastest_ms := response_ms }
        else fact
      else fact
    let fact := { fact with last_seen := nowMicros }
    let recent := fact.recent_attempts ++ [⟨response_ms, is_correct⟩]
    let recent := if recent.length > 100 then recent.drop 1 else recent
    let fact := { fact with recent_attempts := recent }
    { fact with mastery_level := calculate_mastery_level fact grade }
  | none =>
    let new_fact : FactMastery :=
      { total_attempts := 1
        total_correct := if is_correct then 1 else 0
        last_seen := nowMicros
        avg_response_ms := if is_correct then response_ms else 0
        fastest_ms := if is_correct then response_ms else U32_MAX
        recent_attempts := [⟨response_ms, is_correct⟩]
        mastery_level := 0 }
    { new_fact with mastery_level := calculate_mastery_level new_fact grade }

/-- `TimebackEventQueue` row (lib.rs:382-410), the external-XP outbox
event; `id`, `player_id`, `payload` and `created_at` are not read by
`mark_event_sent` and are elided. -/
structure OutboxEvent where
  sent : Bool
  attempts : Nat
  next_retry_at : Option Int
  last_error : Option String
  sent_at : Option Int
deriving DecidableEq, Repr

/-- `u8` saturation bound for the `attempts` counter. -/
def U8_MAX : Nat := 255

/-- `mark_event_sent` (lib.rs:4524-4565), acknowledgement core for an
existing event: `error = none` is success; otherwise increment `attempts`
(`saturating_add` on `u8`), record the error, and either drop (mark sent)
after 5 attempts or schedule the next retry with exponential backoff
`1u64 << attempts.min(4)` minutes. -/
def mark_event_sent (event : OutboxEvent) (error : Option String)
    (nowMicros : Int) : OutboxEvent :=
  match error with
  | none => { event with sent := true, sent_at := some nowMicros, last_error := none }
  | some _ =>
    let event := { event with attempts := min (event.attempts + 1) U8_MAX,
                              last_error := error }
    if event.attempts ≥ 5 then { event with sent := true }
    else
      let backoff_minutes := 2 ^ (min event.attempts 4)
      let backoff_micros : Int := backoff_minutes * 60 * 1000000
      { event with next_retry_at := some (nowMicros + backoff_micros) }

/-- `RaidState` (lib.rs:471-479). -/
inductive RaidState where
  | matchmaking
  | inProgress
  | paused
  | victory
  | failed
  | rematch
  | countdown
deriving DecidableEq, Repr

/-- `Raid` row (lib.rs:427-466).  `room_code`, `problems_issued`,
`max_problems` and `countdown_started_at` are not read by any modelled
transition and are elided. -/
structure Raid where
  state : RaidState
  bossHp : Nat
  bossMaxHp : Nat
  bossLevel : Nat
  startedAtMicros : Int
  pauseStartedAtMicros : Option Int
  durationSeconds : Option Nat
deriving DecidableEq, Repr

/-- `is_adaptive_boss` (lib.rs:69-71). -/
def is_adaptive_boss (boss_level : Nat) : Bool :=
  boss_level = 0 || boss_level ≥ 100

/-- `BOSS_HP_VALUES` (lib.rs:858-869). -/
def BOSS_HP_VALUES : List Nat :=
  [0, 900, 1750, 2600, 3500, 4200, 5000, 5500, 6000]

/-- `boss_hp_for_level` (lib.rs:872-884). -/
def boss_hp_for_level (level player_count adaptive_hp : Nat) : Nat :=
  if is_adaptive_boss level then adaptive_hp
  else if level ≥ BOSS_HP_VALUES.length then adaptive_hp
  else (BOSS_HP_VALUES.getD level 0) * player_count

/-- `raid_timeout_seconds` (lib.rs:887-893). -/
def raid_timeout_seconds (boss_level : Nat) : Nat :=
  if is_adaptive_boss boss_level then 150 else 120

/-- `end_raid` (lib.rs:3950-...) restricted to its effect on the `Raid`
row: the defensive already-ended check, the state write, and
`duration_seconds = max(1, elapsed_seconds)`.  The settlement pipeline
(snapshots, rewards, outbox enqueue) touches other tables only.  The
Rust computes `((duration_micros / 1_000_000) as u32).max(1)` on `i64`;
the model uses `Int.toNat`, which agrees whenever `now ≥ started_at`
and the elapsed seconds fit in `u32` (always, for realistic raids). -/
def end_raid (raid : Raid) (victory : Bool) (nowMicros : Int) : Raid :=
  if raid.state = .victory ∨ raid.state = .failed then raid
  else
    { raid with
      state := if victory then .victory else .failed
      durationSeconds :=
        some (max ((nowMicros - raid.startedAtMicros).toNat / 1000000) 1) }

/-- `pause_raid_if_empty` (lib.rs:1343-1360): only an `InProgress` raid
with zero active members pauses; `activeCount` is
`count_active_raid_players`.  (The timeout-schedule deletion touches the
schedule table only.) -/
def pause_raid_if_empty (raid : Raid) (activeCount : Nat) (nowMicros : Int) : Raid :=
  if raid.state ≠ .inProgress then raid
  else if activeCount > 0 then raid
  else { raid with state := .paused, pauseStartedAtMicros := some nowMicros }

/-- `resume_raid_from_pause` (lib.rs:1363-1414).  Returns the updated raid
and the fire time of the freshly inserted `RaidTimeoutSchedule` row
(`none` when no row is inserted).  `Duration::as_secs` truncates micros
to whole seconds, hence the `/ 1000000` floors. -/
def resume_raid_from_pause (raid : Raid) (nowMicros : Int) :
    Except String (Raid × Option Int) :=
  if raid.state ≠ .paused then .ok (raid, none)
  else
    match raid.pauseStartedAtMicros with
    | none => .error "Invalid state"
    | some pause_started_at =>
      if nowMicros < pause_started_at then .error "Invalid pause timestamp"
      else
        let pause_secs := (nowMicros - pause_started_at).toNat / 1000000
        let new_started_at := raid.startedAtMicros + (pause_secs : Int) * 1000000
        if nowMicros < new_started_at then .error "Invalid timestamp"
        else
          let elapsed_secs := (nowMicros - new_started_at).toNat / 1000000
          let total_duration := raid_timeout_seconds raid.bossLevel
          let time_remaining_secs := total_duration - elapsed_secs
          if time_remaining_secs = 0 then .ok (end_raid raid false nowMicros, none)
          else
            .ok ({ raid with
                    state := .inProgress
                    startedAtMicros := new_started_at
                    pauseStartedAtMicros := none },
                 some (nowMicros + (time_remaining_secs : Int) * 1000000))

/-- `PlayerAnswer` row (lib.rs:545-566) restricted to one
`(problem_id, player_id)` pair; `id`, `problem_id`, `player_id` elided. -/
structure PlayerAnswer where
  response_ms : Nat
  is_correct : Bool
  damage : Nat
deriving DecidableEq, Repr

/-- Result of `submit_answer` on the raid row and on the `PlayerAnswer`
rows of the submitted `(problem, player)` pair. -/
structure SubmitResult where
  raid : Raid
  answers : List PlayerAnswer
deriving DecidableEq, Repr

/-- Damage application and victory check, the tail of `submit_answer`
(lib.rs:2157-2241): compute damage (retry deals `base * 2 / 3`, clamped
with `.min(raid.boss_hp)`), insert the `PlayerAnswer`, subtract from
`boss_hp` (rejecting if already zero) and call `end_raid` with
`victory = true` in the same transaction when the HP reaches zero.
Mastery/stat updates touch other tables and are modelled separately
(`update_fact_mastery`); they do not read or write the raid row. -/
def submit_finish (raid : Raid) (answers : List PlayerAnswer)
    (is_retry is_correct : Bool) (response_ms grade critRoll : Nat)
    (nowMicros : Int) : SubmitResult :=
  let damage :=
    if is_correct then
      let base := calculate_damage response_ms grade critRoll
      min (if is_retry then base * 2 / 3 else base) raid.bossHp
    else 0
  let answers := answers ++ [⟨response_ms, is_correct, damage⟩]
  if damage > 0 then
    if raid.bossHp = 0 then ⟨raid, answers⟩
    else
      let raid := { raid with bossHp := raid.bossHp - damage }
      if raid.bossHp = 0 then ⟨end_raid raid true nowMicros, answers⟩
      else ⟨raid, answers⟩
  else ⟨raid, answers⟩

/-- `submit_answer` (lib.rs:2133-2241) on the raid row and the answer
rows of the submitted pair.  `answers` holds the `PlayerAnswer` rows for
`(problem_id, player_id)`; the Rust `find` over the table returns the
first such row, i.e. `answers.head?`.  `problemAnswer` is the stored
`problem.answer`, `answerValue` the submission.  The in-raid membership
and problem-ownership lookups reject without mutating and are subsumed
by the state guard; the 180 s safety net is kept. -/
def submit_answer (raid : Raid) (answers : List PlayerAnswer)
    (problemAnswer answerValue response_ms grade critRoll : Nat)
    (nowMicros : Int) : SubmitResult :=
  if raid.state ≠ .inProgress then ⟨raid, answers⟩
  else
    let duration_secs := (nowMicros - raid.startedAtMicros).toNat / 1000000
    if duration_secs ≥ 180 then ⟨end_raid raid false nowMicros, answers⟩
    else
      let response_ms := min (max response_ms 200) 60000
      let is_correct := answerValue == problemAnswer
      match answers.head? with
      | some prev =>
        if prev.is_correct then ⟨raid, answers⟩
        else if !is_correct then ⟨raid, answers⟩
        else
          submit_finish raid answers.tail true is_correct response_ms grade
            critRoll nowMicros
      | none =>
        submit_finish raid answers false is_correct response_ms grade
          critRoll nowMicros

/-- `raid_again` (lib.rs:2447-2491) on the raid row: `Victory`/`Failed`
transitions to `Rematch`; other states are rejected. -/
def raid_again (raid : Raid) : Raid :=
  if raid.state = .victory ∨ raid.state = .failed then
    { raid with state := .rematch }
  else raid

/-- `check_raid_timeout` (lib.rs:2826-2853) on the raid row: a timeout
firing against an `InProgress` raid ends it as a defeat; any other state
only deletes the schedule row. -/
def check_raid_timeout (raid : Raid) (nowMicros : Int) : Raid :=
  match raid.state with
  | .inProgress => end_raid raid false nowMicros
  | _ => raid

/-- `countdown_complete` (lib.rs:2773-2821) on the raid row: only a raid
in `Countdown` transitions to `InProgress`, overwriting `started_at`
with the fire time. -/
def countdown_complete_raid (raid : Raid) (nowMicros : Int) : Raid :=
  if raid.state = .countdown then
    { raid with state := .inProgress, startedAtMicros := nowMicros }
  else raid

/-- `start_raid` (lib.rs:2003-2070) on the raid row: from
`Matchmaking`/`Rematch` with `count ≥ 2` ready members, write the fresh
HP and enter `Countdown` (lib.rs:2048-2053 also resets `started_at` and
clears `pause_started_at`). -/
def start_raid_update (raid : Raid) (total_hp : Nat) (nowMicros : Int) : Raid :=
  { raid with
    state := .countdown
    bossHp := total_hp
    bossMaxHp := total_hp
    startedAtMicros := nowMicros
    pauseStartedAtMicros := none }

/-- The boss-level domain of the data model (spec §3: `boss_level ∈
{0, 1..8, 100..108}`); `set_mastery_boss` (lib.rs:1696) validates `1..8`
and `encode_adaptive_boss` (lib.rs:75-77) produces `100..108`, but
`create_private_room` (lib.rs:1474) and `start_solo_raid` (lib.rs:1831)
store any client-supplied `u8` unchecked, so this domain is a premise of
the amended invariant, not a guard of any transition. -/
def validBossLevel (level : Nat) : Prop :=
  level = 0 ∨ (1 ≤ level ∧ level ≤ 8) ∨ (100 ≤ level ∧ level ≤ 108)

instance (level : Nat) : Decidable (validBossLevel level) := by
  unfold validBossLevel; infer_instance

/-- One committed transaction touching a raid row, as the code performs
it.  Each constructor carries exactly the guards the corresponding
reducer checks before mutating — `boss_level` is never validated; HP
values computed from other tables
(`calculate_player_contribution_with_context`, floor 75 per member via
`.max(75)` and the blend; `start_raid`'s `.max(300)`) enter as
hypotheses. -/
inductive RaidStep : Raid → Raid → Prop where
  | startRaid (raid : Raid) (hp count : Nat) (nowMicros : Int)
      (hstate : raid.state = .matchmaking ∨ raid.state = .rematch)
      (hcount : 2 ≤ count)
      (hadapt : is_adaptive_boss raid.bossLevel = true → 300 ≤ hp)
      (hfixed : is_adaptive_boss raid.bossLevel = false →
        hp = boss_hp_for_level raid.bossLevel count 0) :
      RaidStep raid (start_raid_update raid hp nowMicros)
  | countdownComplete (raid : Raid) (nowMicros : Int) :
      RaidStep raid (countdown_complete_raid raid nowMicros)
  | submitAnswer (raid : Raid) (answers : List PlayerAnswer)
      (problemAnswer answerValue response_ms grade critRoll : Nat)
      (nowMicros : Int) :
      RaidStep raid (submit_answer raid answers problemAnswer answerValue
        response_ms grade critRoll nowMicros).raid
  | timeout (raid : Raid) (nowMicros : Int) :
      RaidStep raid (check_raid_timeout raid nowMicros)
  | pauseIfEmpty (raid : Raid) (activeCount : Nat) (nowMicros : Int) :
      RaidStep raid (pause_raid_if_empty raid activeCount nowMicros)
  | resume (raid raid2 : Raid) (sched : Option Int) (nowMicros : Int)
      (h : resume_raid_from_pause raid nowMicros = .ok (raid2, sched)) :
      RaidStep raid raid2
  | raidAgain (raid : Raid) :
      RaidStep raid (raid_again raid)

/-- A freshly inserted raid row, as created by `create_private_room`
(lib.rs:1502-1515, placeholder HP 1000, any client-supplied level),
`start_solo_raid` (lib.rs:1847-1868: `hp = boss_hp_for_level(level, 1,
adaptive_hp)` where the adaptive contribution is at least 75 —
`calculate_player_contribution_with_context` takes `.max(75)` before
every blend with a grade default ≥ 225) or `start_rematch`
(lib.rs:2526-2563: adaptive HP sums ≥ 2 per-member contributions of at
least 75 each; fixed tiers use the ladder with `adaptive_hp = 0`).
`boss_level` is never validated on any of these paths. -/
inductive RaidInit : Raid → Prop where
  | privateRoom (level : Nat) (nowMicros : Int) :
      RaidInit ⟨.matchmaking, 1000, 1000, level, nowMicros, none, none⟩
  | solo (level hp adaptiveHp : Nat) (nowMicros : Int)
      (hcontrib : 75 ≤ adaptiveHp)
      (hhp : hp = boss_hp_for_level level 1 adaptiveHp) :
      RaidInit ⟨.countdown, hp, hp, level, nowMicros, none, none⟩
  | rematch (level hp count : Nat) (nowMicros : Int)
      (hcount : 2 ≤ count)
      (hadapt : is_adaptive_boss level = true → 150 ≤ hp)
      (hfixed : is_adaptive_boss level = false →
        hp = boss_hp_for_level level count 0) :
      RaidInit ⟨.countdown, hp, hp, level, nowMicros, none, none⟩

/-- Spec §8 invariant 5 / claim C1, verbatim: a raid outside
`{Victory, Failed}` has positive HP, and zero HP implies `Victory`. -/
def BossHpInv (raid : Raid) : Prop :=
  (raid.state ≠ .victory ∧ raid.state ≠ .failed → 0 < raid.bossHp) ∧
  (raid.bossHp = 0 → raid.state = .victory)

/-- The amended boss-HP invariant.  Two exemptions the code forces:
`Rematch` raids keep the defeated boss's `boss_hp = 0` until
`start_raid` recomputes it (`raid_again`, lib.rs:2480); and a raid whose
client-supplied `boss_level` lies outside the data model's domain
(9..99) gets `boss_hp = boss_hp_for_level(level, count, 0) = 0` from
`start_raid`/`start_rematch` (lib.rs:2044, 2545 with lib.rs:880-881), so
the HP guarantee is stated only for raids whose `boss_level` is in the
domain. -/
def BossHpInvAmended (raid : Raid) : Prop :=
  validBossLevel raid.bossLevel →
    (raid.state ≠ .victory ∧ raid.state ≠ .failed ∧ raid.state ≠ .rematch →
      0 < raid.bossHp) ∧
    (raid.bossHp = 0 → raid.state = .victory ∨ raid.state = .rematch)

/-- Spec §8 invariant 2 / claim C5: `Paused` iff `pause_started_at` set. -/
def PauseInv (raid : Raid) : Prop :=
  raid.state = .paused ↔ raid.pauseStartedAtMicros ≠ none

instance (raid : Raid) : Decidable (BossHpInv raid) := by
  unfold BossHpInv; infer_instance

instance (raid : Raid) : Decidable (BossHpInvAmended raid) := by
  unfold BossHpInvAmended; infer_instance

instance (raid : Raid) : Decidable (PauseInv raid) := by
  unfold PauseInv; infer_instance

/-- `Operation` (lib.rs:582-587). -/
inductive Operation where
  | add
  | subtract
  | multiply
  | divide
deriving DecidableEq, Repr

/-- Two's-complement wrap into `i16`, the release-mode semantics of the
Rust `i16` arithmetic in `Operation::compute` (identity on in-range
values; only `Multiply` of large operands can wrap). -/
def wrap_i16 (x : Int) : Int := (x + 32768) % 65536 - 32768

/-- `Operation::compute` (lib.rs:591-606); division by zero yields 0. -/
def Operation.compute (op : Operation) (left right : Nat) : Int :=
  wrap_i16 (match op with
    | .add => (left : Int) + right
    | .subtract => (left : Int) - right
    | .multiply => (left : Int) * right
    | .divide => if right = 0 then 0 else (left : Int) / right)

/-- A canonical fact key.  Modelled from the spec: the textual
`parse_fact_key` / `to_key` pair lives in the `math_facts` module, which
is not among the sources; spec §4.4 defines the key as
`min<op>max` for commutative ops and `left<op>right` otherwise, with
symbols `+ - × ÷`.  The decimal text is injective in
`(left, right, operation)` (the operation symbol is a non-digit
separator), so keys are modelled structurally and parsing is total. -/
structure FactKey where
  left : Nat
  right : Nat
  op : Operation
deriving DecidableEq, Repr

/-- Modelled from the spec: `parse_fact_key` from the missing
`math_facts` module, e.g. `"7×8" -> (7, 8, Multiply)` (spec §4.4); on
structural keys it projects the components and never fails. -/
def parse_fact_key (key : FactKey) : Nat × Nat × Operation :=
  (key.left, key.right, key.op)

/-- `calculate_fact_weight` (lib.rs:3643-3678).  `f32` weights are
modelled as exact rationals: bucket weights 10/70/20, spaced-repetition
multipliers 2.0, 1.5, 1.2 (= `6/5`), floor `0.1` (= `1/10`);
`ms_since` uses `saturating_sub`, which is `Nat` subtraction. -/
def calculate_fact_weight (fact : FactMastery) (nowMicros : Nat) : ℚ :=
  let weight : ℚ :=
    if fact.mastery_level ≤ 1 then 10
    else if fact.mastery_level ≤ 4 then 70
    else if fact.mastery_level = 5 then 20
    else 10
  if fact.total_attempts = 0 then 10
  else
    let ms_since := (nowMicros - fact.last_seen) / 1000
    let hours_since : ℚ := (ms_since : ℚ) / 3600000
    let weight :=
      if hours_since ≥ 72 then weight * 2
      else if hours_since ≥ 24 then weight * (3 / 2)
      else if hours_since ≥ 8 then weight * (6 / 5)
      else weight
    max weight (1 / 10)

/-- The operand-overlap test of the anti-repeat logic
(lib.rs:3338-3346): any operand of the last key matches any operand of
the candidate. -/
def shares_operand (last fact : FactKey) : Bool :=
  last.left = fact.left || last.left = fact.right ||
  last.right = fact.left || last.right = fact.right

/-- The anti-repeat weight adjustment applied to a mastery-derived
candidate (lib.rs:3329-3353): zero the exact last key and any
operand-overlapping key, then multiply keys anywhere in the recent
window by `0.1`. -/
def anti_repeat_weight (key : FactKey) (weight : ℚ) (window : List FactKey) : ℚ :=
  let weight :=
    match window.getLast? with
    | some last =>
      if key = last then 0
      else if shares_operand last key then 0
      else weight
    | none => weight
  if key ∈ window then weight * (1 / 10) else weight

/-- Environment a problem selection reads: the player row's grade
(`none` when the row is missing), the allowed fact set for the player's
(grade, track) as returned by the external `math_facts` catalog, the
player's `FactMastery` rows, and the transaction timestamp. -/
structure GenEnv where
  playerGrade : Option Nat
  allowedFacts : List FactKey
  playerFacts : List (FactKey × FactMastery)
  nowMicros : Nat

/-- The mastery-derived weighted candidates (lib.rs:3321-3358): facts
with mastery rows, restricted to the allowed set, anti-repeat adjusted,
kept only when the weight is positive. -/
def mastery_candidates (env : GenEnv) (window : List FactKey) :
    List (FactKey × ℚ) :=
  env.playerFacts.foldl
    (fun acc fk =>
      if fk.1 ∈ env.allowedFacts then
        let weight :=
          anti_repeat_weight fk.1 (calculate_fact_weight fk.2 env.nowMicros) window
        if weight > 0 then acc ++ [(fk.1, weight)] else acc
      else acc)
    []

/-- The discovery injection (lib.rs:3360-3392): every allowed key not
already among the candidates is added with weight 10, skipping the exact
last key, operand-overlapping keys, and keys anywhere in the window. -/
def inject_candidates (env : GenEnv) (window : List FactKey)
    (start : List (FactKey × ℚ)) : List (FactKey × ℚ) :=
  env.allowedFacts.foldl
    (fun acc key =>
      if acc.any (fun p => p.1 = key) then acc
      else
        let skip :=
          match window.getLast? with
          | some last => key = last || shares_operand last key
          | none => false
        if skip then acc
        else if key ∈ window then acc
        else acc ++ [(key, 10)])
    start

/-- The prefix-sum walk inside `weighted_random_selection`
(lib.rs:3796-3802): return the first fact whose running cumulative
weight reaches the drawn value. -/
def select_walk : List (FactKey × ℚ) → ℚ → ℚ → Option FactKey
  | [], _, _ => none
  | p :: rest, random_value, cumulative =>
    let cumulative := cumulative + p.2
    if random_value ≤ cumulative then some p.1
    else select_walk rest random_value cumulative

/-- `weighted_random_selection` (lib.rs:3776-3805): scramble the seed
with Knuth's multiplicative hash (wrapping `u64` multiply), draw a value
in `[0, total_weight)` via `% 10000`, walk the prefix sums, falling back
to the last item; with zero total weight pick by index. -/
def weighted_random_selection (facts : List (FactKey × ℚ)) (seed : Nat) :
    Option FactKey :=
  match facts with
  | [] => none
  | _ =>
    let total_weight : ℚ := (facts.map (fun p => p.2)).sum
    let scrambled := (seed * 2654435761) % 2 ^ 64
    if total_weight = 0 then
      (facts.get? (scrambled % facts.length)).map (fun p => p.1)
    else
      let random_value : ℚ := ((scrambled % 10000 : Nat) : ℚ) / 10000 * total_weight
      match select_walk facts random_value 0 with
      | some key => some key
      | none => facts.getLast?.map (fun p => p.1)

/-- `generate_adaptive_problem` (lib.rs:3274-3434): returns the operand
pair (commutative operands swapped on even seed parity), the selected
canonical key, and the updated recent window (last 10 kept).  `none`
when the player row is missing or no weighted candidate exists.  The
seed is `timestamp_micros + sequence` wrapped to `u64`
(lib.rs:3317-3318); the `recent_problems` CSV field is modelled as the
list of its keys. -/
def generate_adaptive_problem (sequence : Nat) (env : GenEnv)
    (window : List FactKey) :
    Option ((Nat × Nat × Operation) × FactKey × List FactKey) :=
  match env.playerGrade with
  | none => none
  | some _ =>
    let seed := (env.nowMicros + sequence) % 2 ^ 64
    let weighted := inject_candidates env window (mastery_candidates env window)
    match weighted_random_selection weighted seed with
    | none => none
    | some selected =>
      let (left, right, operation) := parse_fact_key selected
      let pair :=
        match operation with
        | .add | .multiply => if seed % 2 = 0 then (right, left) else (left, right)
        | .subtract | .divide => (left, right)
      let updated := window ++ [selected]
      let updated := if updated.length > 10 then updated.drop 1 else updated
      some ((pair.1, pair.2, operation), selected, updated)

/-- `generate_problem` (lib.rs:3437-3521): the adaptive path, falling
back to a uniform pick from the allowed facts by `seed % len` (no
anti-repeat), with the same window push and parity swap; `(5, 5, ×)`
safety fallbacks when the player row or the fact set is missing. -/
def generate_problem (sequence : Nat) (env : GenEnv) (window : List FactKey) :
    (Nat × Nat × Operation) × List FactKey :=
  match generate_adaptive_problem sequence env window with
  | some (result, _, updated) => (result, updated)
  | none =>
    match env.playerGrade with
    | none => ((5, 5, .multiply), window)
    | some _ =>
      match env.allowedFacts with
      | [] => ((5, 5, .multiply), window)
      | _ =>
        let seed := (env.nowMicros + sequence) % 2 ^ 64
        let fact_index := seed % env.allowedFacts.length
        let fact := env.allowedFacts.getD fact_index ⟨5, 5, .multiply⟩
        let (left, right, operation) := parse_fact_key fact
        let updated := window ++ [fact]
        let updated := if updated.length > 10 then updated.drop 1 else updated
        let pair :=
          match operation with
          | .add | .multiply => if seed % 2 = 0 then (right, left) else (left, right)
          | .subtract | .divide => (left, right)
        ((pair.1, pair.2, operation), updated)

/-- `Problem` row (lib.rs:509-531); `id`, `raid_id`, `player_id` and
`issued_at` elided (ids auto-increment, the other fields are the batch
parameters). -/
structure Problem where
  left_operand : Nat
  right_operand : Nat
  operation : Operation
  answer : Nat
  sequence : Nat
deriving DecidableEq, Repr

/-- `PROBLEMS_PER_RAID` (lib.rs:2313). -/
def PROBLEMS_PER_RAID : Nat := 150

/-- One iteration of the batch loop (lib.rs:2329-2345): generate a
problem, compute `answer = operation.compute(l, r) as u16`, insert the
row carrying the loop's `sequence`. -/
def batch_step (env : GenEnv) (acc : List Problem × List FactKey)
    (sequence : Nat) : List Problem × List FactKey :=
  let (result, window) := generate_problem sequence env acc.2
  let answer := ((result.2.2.compute result.1 result.2.1) % 65536).toNat
  (acc.1 ++ [⟨result.1, result.2.1, result.2.2, answer, sequence⟩], window)

/-- `generate_problem_batch` (lib.rs:2317-2350): insert one problem per
`sequence in 0..PROBLEMS_PER_RAID`, threading the recent window through
the mutable `raid_player`. -/
def generate_problem_batch (env : GenEnv) (window : List FactKey) :
    List Problem × List FactKey :=
  (List.range PROBLEMS_PER_RAID).foldl (batch_step env) ([], window)

/-! ## Theorems -/

/-- C10: for every grade and every response strictly above the grade's
fast threshold, `estimate_average_damage` returns exactly the value
`calculate_damage` returns for every RNG outcome; at or below the
threshold the estimate is the fixed expectation 86 while
`calculate_damage` returns 75 or 150. -/
theorem estimate_refines_calculate (response_ms grade critRoll : Nat) :
    (get_fast_threshold_ms grade < response_ms →
      estimate_average_damage response_ms grade =
        calculate_damage response_ms grade critRoll) ∧
    (response_ms ≤ get_fast_threshold_ms grade →
      estimate_average_damage response_ms grade = 86 ∧
        (calculate_damage response_ms grade critRoll = 75 ∨
         calculate_damage response_ms grade critRoll = 150)) := by
  simp only [estimate_average_damage, calculate_damage, get_fast_threshold_ms]
  constructor <;> intro h <;> split_ifs <;> simp_all <;> omega

/-- Witness for `estimate_refines_calculate` at a concrete input. -/
theorem estimate_refines_calculate_witness :
    get_fast_threshold_ms 3 < 2500 ∧
      estimate_average_damage 2500 3 = calculate_damage 2500 3 20 :=
  ⟨by decide, (estimate_refines_calculate 2500 3 20).1 (by decide)⟩

/-- C8 counterexample: the claim implies the first retry of a fresh
event (attempts = 0) is spaced 1 minute; the code increments `attempts`
first, so `1 << min(1, 4) = 2` minutes elapse before the first retry,
not 1. -/
theorem mark_event_sent_first_backoff_not_one_minute :
    (mark_event_sent ⟨false, 0, none, none, none⟩ (some "timeout") 0).next_retry_at
        = some 120000000 ∧
      (mark_event_sent ⟨false, 0, none, none, none⟩ (some "timeout") 0).next_retry_at
        ≠ some 60000000 := by
  constructor <;> decide

/-- C8 amended: a failure acknowledgement increments `attempts`
(saturating at `u8`), stores the error; with the incremented count at
least 5 the event is dropped (`sent = true`, no retry scheduled),
otherwise `next_retry_at = now + (1 << min(attempts, 4))` minutes where
`attempts` is the incremented count — so a fresh event's four scheduled
retries are spaced 2/4/8/16 minutes and the fifth failure drops it. -/
theorem mark_event_sent_failure_spec (event : OutboxEvent) (error : String)
    (nowMicros : Int) :
    (mark_event_sent event (some error) nowMicros).attempts
        = min (event.attempts + 1) U8_MAX ∧
    (mark_event_sent event (some error) nowMicros).last_error = some error ∧
    (5 ≤ min (event.attempts + 1) U8_MAX →
      (mark_event_sent event (some error) nowMicros).sent = true ∧
      (mark_event_sent event (some error) nowMicros).next_retry_at
        = event.next_retry_at) ∧
    (min (event.attempts + 1) U8_MAX < 5 →
      (mark_event_sent event (some error) nowMicros).sent = event.sent ∧
      (mark_event_sent event (some error) nowMicros).next_retry_at
        = some (nowMicros +
            2 ^ (min (min (event.attempts + 1) U8_MAX) 4) * 60 * 1000000)) := by
  simp only [mark_event_sent]
  refine ⟨?_, ?_, ?_, ?_⟩ <;> try intro h
  all_goals split_ifs with hge <;> simp_all <;> omega

/-- Witness for `mark_event_sent_failure_spec` at a concrete input:
the fourth failure schedules a retry 16 minutes out. -/
theorem mark_event_sent_failure_spec_witness :
    min (3 + 1) U8_MAX < 5 ∧
      (mark_event_sent ⟨false, 3, some 0, some "e", none⟩ (some "e") 1000).next_retry_at
        = some (1000 + 2 ^ (min (min (3 + 1) U8_MAX) 4) * 60 * 1000000) :=
  ⟨by decide,
    ((mark_event_sent_failure_spec ⟨false, 3, some 0, some "e", none⟩ "e" 1000).2.2.2
      (by decide)).2⟩

/-- C5 (code bug): a member resuming a `Paused` raid whose remaining
time is zero sends the raid through `end_raid(false)`, which sets the
state to `Failed` but never clears `pause_started_at`.  Concretely: a
raid paused 150 s after its (adaptive, 150 s timeout) start, resumed
10 s later, commits with `state = Failed` and `pause_started_at` still
set — violating the invariant `Paused ↔ pause_started_at set`, which
held before the transaction. -/
theorem resume_zero_remaining_keeps_pause_timestamp :
    resume_raid_from_pause ⟨.paused, 500, 500, 0, 0, some 150000000, none⟩ 160000000
        = .ok (⟨.failed, 500, 500, 0, 0, some 150000000, some 160⟩, none) ∧
      PauseInv ⟨.paused, 500, 500, 0, 0, some 150000000, none⟩ ∧
      ¬ PauseInv ⟨.failed, 500, 500, 0, 0, some 150000000, some 160⟩ := by
  refine ⟨by rfl, by simp [PauseInv], by simp [PauseInv]⟩

/-- C4 counterexample: the claim says `started_at` is shifted forward by
exactly the pause duration `now - pause_started_at`.  The code shifts it
by `Duration::as_secs(pause_duration)` whole seconds: pausing at
t = 10 s and resuming at t = 11.5 s shifts `started_at` by 1 s
(1 000 000 µs), not by the exact 1 500 000 µs pause duration. -/
theorem resume_shift_truncates_to_seconds :
    resume_raid_from_pause ⟨.paused, 500, 500, 0, 0, some 10000000, none⟩ 11500000
        = .ok (⟨.inProgress, 500, 500, 0, 1000000, none, none⟩, some 151500000) ∧
      (1000000 : Int) ≠ 11500000 - 10000000 :=
  ⟨rfl, by decide⟩

/-- C4 amended: on reconnect to a `Paused` raid, `started_at` is shifted
forward by the pause duration truncated to whole seconds,
`pause_started_at` is cleared, the raid returns to `InProgress`, and a
timeout is scheduled at `now + (timeout_seconds - elapsed-since-shifted-
start truncated to whole seconds)`; if the remaining time is zero the
raid transitions directly to `Failed`. -/
theorem resume_raid_spec (raid : Raid) (nowMicros p : Int)
    (hstate : raid.state = .paused)
    (hpause : raid.pauseStartedAtMicros = some p)
    (hple : p ≤ nowMicros)
    (hsp : raid.startedAtMicros ≤ p) :
    (raid_timeout_seconds raid.bossLevel -
        (nowMicros - (raid.startedAtMicros +
          (((nowMicros - p).toNat / 1000000 : Nat) : Int) * 1000000)).toNat / 1000000 ≠ 0 →
      resume_raid_from_pause raid nowMicros =
        .ok ({ raid with
                state := .inProgress
                startedAtMicros := raid.startedAtMicros +
                  (((nowMicros - p).toNat / 1000000 : Nat) : Int) * 1000000
                pauseStartedAtMicros := none },
             some (nowMicros +
               ((raid_timeout_seconds raid.bossLevel -
                  (nowMicros - (raid.startedAtMicros +
                    (((nowMicros - p).toNat / 1000000 : Nat) : Int) * 1000000)).toNat
                      / 1000000 : Nat) : Int) * 1000000))) ∧
    (raid_timeout_seconds raid.bossLevel -
        (nowMicros - (raid.startedAtMicros +
          (((nowMicros - p).toNat / 1000000 : Nat) : Int) * 1000000)).toNat / 1000000 = 0 →
      resume_raid_from_pause raid nowMicros =
          .ok (end_raid raid false nowMicros, none) ∧
        (end_raid raid false nowMicros).state = .failed) := by
  have h1 : ¬ nowMicros < p := not_lt.mpr hple
  have h2 : ¬ nowMicros < raid.startedAtMicros +
      (((nowMicros - p).toNat / 1000000 : Nat) : Int) * 1000000 := by
    have hmul := Nat.div_mul_le_self (nowMicros - p).toNat 1000000
    omega
  constructor
  · intro hrem
    simp only [resume_raid_from_pause, hstate, hpause, ne_eq, not_true_eq_false,
      if_false, if_neg h1, if_neg h2, if_neg hrem]
  · intro hrem
    refine ⟨?_, ?_⟩
    · simp only [resume_raid_from_pause, hstate, hpause, ne_eq, not_true_eq_false,
        if_false, if_neg h1, if_neg h2, if_pos hrem]
    · simp only [end_raid, hstate]
      simp

/-- Witness for `resume_raid_spec` at a concrete input: the scenario of
spec §8 (pause at t = 40 s, resume at t = 100 s, 150 s timeout) resumes
with `started_at` shifted to t = 60 s and a timeout at t = 210 s. -/
theorem resume_raid_spec_witness :
    resume_raid_from_pause ⟨.paused, 500, 500, 0, 0, some 40000000, none⟩ 100000000
        = .ok (⟨.inProgress, 500, 500, 0, 60000000, none, none⟩, some 210000000) := by
  have h := (resume_raid_spec ⟨.paused, 500, 500, 0, 0, some 40000000, none⟩
    100000000 40000000 rfl rfl (by decide) (by decide)).1 (by decide)
  simpa using h

/-- The batch loop appends exactly one problem per loop index, carrying
the index as its `sequence`. -/
theorem batch_foldl_sequences (env : GenEnv) :
    ∀ (l : List Nat) (acc : List Problem × List FactKey),
      ((l.foldl (batch_step env) acc).1).map Problem.sequence
        = acc.1.map Problem.sequence ++ l := by
  intro l
  induction l with
  | nil => intro acc; simp
  | cons s rest ih =>
    intro acc
    rw [List.foldl_cons, ih]
    simp [batch_step]

/-- C6: when `countdown_complete` transitions a raid from `Countdown` to
`InProgress`, the batch generated for each active member inserts exactly
150 `Problem` rows whose `sequence` values are `0, 1, …, 149`, strictly
increasing.  (`env`/`window` range over the generation state of an
arbitrary active member.) -/
theorem countdown_generates_150_sequenced_problems (raid : Raid)
    (nowMicros : Int) (env : GenEnv) (window : List FactKey)
    (hstate : raid.state = .countdown) :
    (countdown_complete_raid raid nowMicros).state = .inProgress ∧
    (generate_problem_batch env window).1.length = 150 ∧
    ((generate_problem_batch env window).1.map Problem.sequence)
        = List.range 150 ∧
    ((generate_problem_batch env window).1.map Problem.sequence).Pairwise
        (· < ·) := by
  have hseq := batch_foldl_sequences env (List.range PROBLEMS_PER_RAID) ([], window)
  simp only [PROBLEMS_PER_RAID, List.map_nil, List.nil_append] at hseq
  have hmain : ((generate_problem_batch env window).1.map Problem.sequence)
      = List.range 150 := by
    simpa [generate_problem_batch, PROBLEMS_PER_RAID] using hseq
  refine ⟨by simp [countdown_complete_raid, hstate], ?_, hmain, ?_⟩
  · have := congrArg List.length hmain
    simpa using this
  · rw [hmain]
    exact List.pairwise_lt_range 150

/-- Witness for `countdown_generates_150_sequenced_problems` at a
concrete raid in `Countdown` and an empty generation environment. -/
theorem countdown_generates_150_sequenced_problems_witness :
    (countdown_complete_raid ⟨.countdown, 550, 550, 0, 0, none, none⟩ 0).state
        = .inProgress ∧
      (generate_problem_batch ⟨none, [], [], 0⟩ []).1.length = 150 :=
  ⟨(countdown_generates_150_sequenced_problems ⟨.countdown, 550, 550, 0, 0, none, none⟩
      0 ⟨none, [], [], 0⟩ [] rfl).1,
   (countdown_generates_150_sequenced_problems ⟨.countdown, 550, 550, 0, 0, none, none⟩
      0 ⟨none, [], [], 0⟩ [] rfl).2.1⟩

/-- `calculate_mastery_level` reads only `total_attempts` and
`recent_attempts`. -/
theorem calc_mastery_congr (f g : FactMastery) (grade : Nat)
    (h1 : f.total_attempts = g.total_attempts)
    (h2 : f.recent_attempts = g.recent_attempts) :
    calculate_mastery_level f grade = calculate_mastery_level g grade := by
  unfold calculate_mastery_level
  rw [h1, h2]

/-- C9: for every `FactMastery` record and grade `g` with threshold
`T(g)`, the computed mastery level classifies the last three
`recent_attempts` entries as 5 / 4 / 3 / 2 / 1 / 0 exactly as the spec
orders it (0 whenever `total_attempts = 0`), and the stored
`mastery_level` equals the recomputation after every
`update_fact_mastery` (both the fresh-row and existing-row paths). -/
theorem mastery_level_spec (fact : FactMastery) (grade : Nat)
    (existing : Option FactMastery) (is_correct : Bool)
    (response_ms nowMicros : Nat) :
    (fact.total_attempts = 0 → calculate_mastery_level fact grade = 0) ∧
    (fact.total_attempts ≠ 0 →
      calculate_mastery_level fact grade =
        (let T := get_fast_threshold_ms grade
         let last3 := fact.recent_attempts.drop (fact.recent_attempts.length - 3)
         if 2 ≤ last3.countP (fun a => decide (a.correct = true ∧ a.time_ms ≤ T)) then 5
         else if ∃ a ∈ last3, a.correct = true ∧ a.time_ms ≤ 2 * T then 4
         else if ∃ a ∈ last3, a.correct = true ∧ a.time_ms ≤ 3 * T then 3
         else if 2 ≤ last3.countP (fun a => a.correct) then 2
         else if 1 ≤ last3.countP (fun a => a.correct) then 1
         else 0)) ∧
    (update_fact_mastery existing grade is_correct response_ms nowMicros).mastery_level
      = calculate_mastery_level
          (update_fact_mastery existing grade is_correct response_ms nowMicros)
          grade := by
  refine ⟨?_, ?_, ?_⟩
  · intro h
    simp [calculate_mastery_level, h]
  · intro h
    have hidx : (if fact.recent_attempts.length > 3
        then fact.recent_attempts.length - 3 else 0)
        = fact.recent_attempts.length - 3 := by
      split <;> omega
    have hpred : ∀ t : Nat,
        (fun a : AttemptRecord => decide (a.correct = true ∧ a.time_ms ≤ t))
          = fun a : AttemptRecord => a.correct && decide (a.time_ms ≤ t) := by
      intro t
      funext a
      cases h2 : a.correct <;> simp [h2]
    simp only [calculate_mastery_level, if_neg h, hidx, hpred,
      List.countP_eq_length_filter, ge_iff_le, List.any_eq_true,
      Bool.and_eq_true, decide_eq_true_eq]
    simp [Nat.mul_comm]
  · cases existing with
    | none =>
      simp only [update_fact_mastery]
      exact calc_mastery_congr _ _ grade rfl rfl
    | some f =>
      simp only [update_fact_mastery]
      split_ifs <;> exact calc_mastery_congr _ _ grade rfl rfl

/-- Witness for `mastery_level_spec` at concrete inputs: three fast
correct attempts at grade 3 classify as level 5 and a fresh update
stores the recomputed level. -/
theorem mastery_level_spec_witness :
    calculate_mastery_level ⟨3, 3, 0, 1000, 900, [⟨1000, true⟩, ⟨1100, true⟩, ⟨900, true⟩], 5⟩ 3
        = 5 ∧
      (update_fact_mastery none 3 true 1200 0).mastery_level
        = calculate_mastery_level (update_fact_mastery none 3 true 1200 0) 3 := by
  constructor
  · have h := (mastery_level_spec
      ⟨3, 3, 0, 1000, 900, [⟨1000, true⟩, ⟨1100, true⟩, ⟨900, true⟩], 5⟩ 3 none true 0 0).2.1
      (by decide)
    rw [h]
    decide
  · exact (mastery_level_spec ⟨0, 0, 0, 0, 0, [], 0⟩ 3 none true 1200 0).2.2

theorem end_raid_bossHp (raid : Raid) (victory : Bool) (nowMicros : Int) :
    (end_raid raid victory nowMicros).bossHp = raid.bossHp := by
  unfold end_raid
  split_ifs <;> rfl

theorem end_raid_pause (raid : Raid) (victory : Bool) (nowMicros : Int) :
    (end_raid raid victory nowMicros).pauseStartedAtMicros
      = raid.pauseStartedAtMicros := by
  unfold end_raid
  split_ifs <;> rfl

theorem end_raid_state (raid : Raid) (victory : Bool) (nowMicros : Int)
    (h1 : raid.state ≠ .victory) (h2 : raid.state ≠ .failed) :
    (end_raid raid victory nowMicros).state
      = if victory then .victory else .failed := by
  unfold end_raid
  rw [if_neg (by tauto)]

/-- An accepted `submit_answer` (state `InProgress`, inside the 180 s
safety net) reduces to the prior-answer case split over
`submit_finish`. -/
theorem submit_answer_accepted_eq (raid : Raid) (answers : List PlayerAnswer)
    (problemAnswer answerValue response_ms grade critRoll : Nat) (nowMicros : Int)
    (hstate : raid.state = .inProgress)
    (helapsed : (nowMicros - raid.startedAtMicros).toNat / 1000000 < 180) :
    submit_answer raid answers problemAnswer answerValue response_ms grade
        critRoll nowMicros =
      match answers.head? with
      | some prev =>
        if prev.is_correct then ⟨raid, answers⟩
        else if !(answerValue == problemAnswer) then ⟨raid, answers⟩
        else submit_finish raid answers.tail true (answerValue == problemAnswer)
          (min (max response_ms 200) 60000) grade critRoll nowMicros
      | none =>
        submit_finish raid answers false (answerValue == problemAnswer)
          (min (max response_ms 200) 60000) grade critRoll nowMicros := by
  simp only [submit_answer, hstate, ne_eq, not_true_eq_false, if_false,
    ge_iff_le, if_neg (by omega : ¬ 180 ≤ (nowMicros - raid.startedAtMicros).toNat / 1000000)]

/-- `submit_finish` always appends exactly one `PlayerAnswer` row,
recording the clamped response, the correctness flag, and the damage
(zero when wrong; the clamped base or `2/3` retry value when right). -/
theorem submit_finish_answers (raid : Raid) (ans : List PlayerAnswer)
    (is_retry is_correct : Bool) (r grade critRoll : Nat) (nowMicros : Int) :
    (submit_finish raid ans is_retry is_correct r grade critRoll nowMicros).answers
      = ans ++ [⟨r, is_correct,
          if is_correct then
            min (if is_retry then calculate_damage r grade critRoll * 2 / 3
                 else calculate_damage r grade critRoll) raid.bossHp
          else 0⟩] := by
  simp only [submit_finish]
  split_ifs <;> simp_all

/-- `submit_finish` subtracts exactly the recorded damage from the boss. -/
theorem submit_finish_bossHp (raid : Raid) (ans : List PlayerAnswer)
    (is_retry is_correct : Bool) (r grade critRoll : Nat) (nowMicros : Int) :
    (submit_finish raid ans is_retry is_correct r grade critRoll nowMicros).raid.bossHp
      = raid.bossHp -
          (if is_correct then
            min (if is_retry then calculate_damage r grade critRoll * 2 / 3
                 else calculate_damage r grade critRoll) raid.bossHp
          else 0) := by
  simp only [submit_finish]
  split_ifs <;> simp_all [end_raid_bossHp] <;> omega

/-- The speed-curve bands of `calculate_damage`. -/
theorem calculate_damage_bands (r grade critRoll : Nat) :
    (r ≤ get_fast_threshold_ms grade →
      calculate_damage r grade critRoll = if critRoll < 15 then 150 else 75) ∧
    (get_fast_threshold_ms grade < r ∧ r ≤ get_fast_threshold_ms grade + 1000 →
      calculate_damage r grade critRoll = 60) ∧
    (get_fast_threshold_ms grade + 1000 < r ∧ r ≤ get_fast_threshold_ms grade + 2000 →
      calculate_damage r grade critRoll = 45) ∧
    (get_fast_threshold_ms grade + 2000 < r ∧ r ≤ get_fast_threshold_ms grade + 3000 →
      calculate_damage r grade critRoll = 30) ∧
    (get_fast_threshold_ms grade + 3000 < r ∧ r ≤ get_fast_threshold_ms grade + 5000 →
      calculate_damage r grade critRoll = 23) ∧
    (get_fast_threshold_ms grade + 5000 < r →
      calculate_damage r grade critRoll = 15) := by
  simp only [calculate_damage]
  refine ⟨?_, ?_, ?_, ?_, ?_, ?_⟩ <;> intro h <;> split_ifs <;> omega

/-- The grade → threshold table of `get_fast_threshold_ms`. -/
theorem get_fast_threshold_table (grade : Nat) :
    (grade = 0 → get_fast_threshold_ms grade = 3000) ∧
    (1 ≤ grade ∧ grade ≤ 3 → get_fast_threshold_ms grade = 2000) ∧
    (grade = 4 → get_fast_threshold_ms grade = 1700) ∧
    (5 ≤ grade → get_fast_threshold_ms grade = 1500) := by
  unfold get_fast_threshold_ms
  refine ⟨?_, ?_, ?_, ?_⟩ <;> intro h <;> split_ifs <;> omega

/-- A wrong answer never mutates the raid row. -/
theorem submit_finish_raid_of_wrong (raid : Raid) (ans : List PlayerAnswer)
    (is_retry : Bool) (r grade critRoll : Nat) (nowMicros : Int) :
    (submit_finish raid ans is_retry false r grade critRoll nowMicros).raid
      = raid := by
  simp [submit_finish]

/-- C2: for every accepted `submit_answer` with clamped response `r` and
grade `g`: a wrong answer deals damage 0; a correct first attempt deals
the speed-curve band value for `r` against the grade threshold `T(g)`
(with a crit-roll < 15 out of 100 — 15 % — doubling the fast band to
150); a correct retry deals `2/3` (floored) of that value; and the
recorded damage is clamped by `min` to the current `boss_hp`. -/
theorem submit_answer_damage_spec (raid : Raid) (answers : List PlayerAnswer)
    (problemAnswer answerValue response_ms grade critRoll : Nat) (nowMicros : Int)
    (r base : Nat) (result : SubmitResult)
    (hstate : raid.state = .inProgress)
    (helapsed : (nowMicros - raid.startedAtMicros).toNat / 1000000 < 180)
    (hr : r = min (max response_ms 200) 60000)
    (hbase : base = calculate_damage r grade critRoll)
    (hres : result = submit_answer raid answers problemAnswer answerValue
      response_ms grade critRoll nowMicros) :
    ((grade = 0 → get_fast_threshold_ms grade = 3000) ∧
     (1 ≤ grade ∧ grade ≤ 3 → get_fast_threshold_ms grade = 2000) ∧
     (grade = 4 → get_fast_threshold_ms grade = 1700) ∧
     (5 ≤ grade → get_fast_threshold_ms grade = 1500)) ∧
    ((r ≤ get_fast_threshold_ms grade →
        base = if critRoll < 15 then 150 else 75) ∧
     (get_fast_threshold_ms grade < r ∧ r ≤ get_fast_threshold_ms grade + 1000 →
        base = 60) ∧
     (get_fast_threshold_ms grade + 1000 < r ∧ r ≤ get_fast_threshold_ms grade + 2000 →
        base = 45) ∧
     (get_fast_threshold_ms grade + 2000 < r ∧ r ≤ get_fast_threshold_ms grade + 3000 →
        base = 30) ∧
     (get_fast_threshold_ms grade + 3000 < r ∧ r ≤ get_fast_threshold_ms grade + 5000 →
        base = 23) ∧
     (get_fast_threshold_ms grade + 5000 < r → base = 15)) ∧
    (answerValue ≠ problemAnswer →
      result.raid = raid ∧ ∀ a ∈ result.answers, a ∈ answers ∨ a.damage = 0) ∧
    (answerValue = problemAnswer → answers = [] →
      result.answers = [⟨r, true, min base raid.bossHp⟩] ∧
      result.raid.bossHp = raid.bossHp - min base raid.bossHp) ∧
    (∀ prev, answerValue = problemAnswer → answers = [prev] →
      prev.is_correct = false →
      result.answers = [⟨r, true, min (base * 2 / 3) raid.bossHp⟩] ∧
      result.raid.bossHp = raid.bossHp - min (base * 2 / 3) raid.bossHp) := by
  subst hres hbase hr
  refine ⟨get_fast_threshold_table grade, calculate_damage_bands _ grade critRoll,
    ?_, ?_, ?_⟩
  · intro hne
    have hbeq : (answerValue == problemAnswer) = false := by
      simp [hne]
    rw [submit_answer_accepted_eq raid answers problemAnswer answerValue
      response_ms grade critRoll nowMicros hstate helapsed]
    cases answers with
    | nil =>
      simp only [List.head?, hbeq]
      refine ⟨submit_finish_raid_of_wrong _ _ _ _ _ _ _, ?_⟩
      intro a ha
      rw [submit_finish_answers] at ha
      simp only [List.nil_append, List.mem_singleton] at ha
      subst ha
      exact Or.inr (by simp [hbeq])
    | cons prev rest =>
      simp only [List.head?, hbeq]
      split_ifs <;> simp_all
  · intro hc hnil
    subst hnil hc
    have hbeq : (answerValue == answerValue) = true := by simp
    rw [submit_answer_accepted_eq raid [] answerValue answerValue
      response_ms grade critRoll nowMicros hstate helapsed]
    simp only [List.head?, hbeq]
    rw [submit_finish_answers, submit_finish_bossHp]
    simp
  · intro prev hc hone hpw
    subst hone hc
    have hbeq : (answerValue == answerValue) = true := by simp
    rw [submit_answer_accepted_eq raid [prev] answerValue answerValue
      response_ms grade critRoll nowMicros hstate helapsed]
    simp only [List.head?, hbeq, hpw, Bool.not_true, Bool.false_eq_true, if_false,
      List.tail]
    rw [submit_finish_answers, submit_finish_bossHp]
    simp

/-- Witness for `submit_answer_damage_spec` at a concrete input: a
correct first attempt at 1500 ms, grade 3, no crit, against a 550 HP
boss records damage 75 and leaves 475 HP. -/
theorem submit_answer_damage_spec_witness :
    (submit_answer ⟨.inProgress, 550, 550, 0, 0, none, none⟩ [] 42 42 1500 3 50 0).answers
        = [⟨1500, true, min (calculate_damage 1500 3 50) 550⟩] ∧
      (submit_answer ⟨.inProgress, 550, 550, 0, 0, none, none⟩ [] 42 42 1500 3 50 0).raid.bossHp
        = 550 - min (calculate_damage 1500 3 50) 550 :=
  (submit_answer_damage_spec ⟨.inProgress, 550, 550, 0, 0, none, none⟩ [] 42 42 1500 3 50 0
      1500 (calculate_damage 1500 3 50) _ rfl (by decide) (by decide) rfl rfl).2.2.2.1
    rfl rfl

/-- C3: for one `(problem_id, player_id)` pair, `submit_answer` keeps at
most one `PlayerAnswer` row (hence at most one correct one); a
duplicate-correct submission is rejected unchanged; wrong-after-wrong is
a no-op retaining the original attempt; wrong-then-correct deletes the
prior row and records the retry. -/
theorem submit_answer_single_row_spec (raid : Raid) (answers : List PlayerAnswer)
    (problemAnswer answerValue response_ms grade critRoll : Nat) (nowMicros : Int)
    (hstate : raid.state = .inProgress)
    (helapsed : (nowMicros - raid.startedAtMicros).toNat / 1000000 < 180) :
    (answers.length ≤ 1 →
      (submit_answer raid answers problemAnswer answerValue response_ms grade
          critRoll nowMicros).answers.length ≤ 1 ∧
      ((submit_answer raid answers problemAnswer answerValue response_ms grade
          critRoll nowMicros).answers.filter (fun a => a.is_correct)).length ≤ 1) ∧
    (∀ prev, answers.head? = some prev → prev.is_correct = true →
      submit_answer raid answers problemAnswer answerValue response_ms grade
          critRoll nowMicros = ⟨raid, answers⟩) ∧
    (∀ prev, answers.head? = some prev → prev.is_correct = false →
      answerValue ≠ problemAnswer →
      submit_answer raid answers problemAnswer answerValue response_ms grade
          critRoll nowMicros = ⟨raid, answers⟩) ∧
    (∀ prev, answers = [prev] → prev.is_correct = false →
      answerValue = problemAnswer →
      (submit_answer raid answers problemAnswer answerValue response_ms grade
          critRoll nowMicros).answers
        = [⟨min (max response_ms 200) 60000, true,
            min (calculate_damage (min (max response_ms 200) 60000) grade critRoll
                * 2 / 3) raid.bossHp⟩]) := by
  rw [submit_answer_accepted_eq raid answers problemAnswer answerValue
    response_ms grade critRoll nowMicros hstate helapsed]
  have key : ∀ res : SubmitResult, res.answers.length ≤ 1 →
      res.answers.length ≤ 1 ∧
        (res.answers.filter (fun a => a.is_correct)).length ≤ 1 :=
    fun res h => ⟨h, le_trans (List.length_filter_le _ _) h⟩
  refine ⟨?_, ?_, ?_, ?_⟩
  · intro hlen
    cases answers with
    | nil =>
      simp only [List.head?]
      apply key
      rw [submit_finish_answers]
      simp
    | cons prev rest =>
      have hrest : rest = [] := by
        cases rest with
        | nil => rfl
        | cons b l => simp at hlen
      subst hrest
      simp only [List.head?]
      split_ifs with h1 h2
      · exact key _ (by simp)
      · exact key _ (by simp)
      · apply key
        rw [List.tail_cons, submit_finish_answers]
        simp
  · intro prev hhead hcorr
    cases answers with
    | nil => simp at hhead
    | cons p rest =>
      simp only [List.head?, Option.some.injEq] at hhead
      subst hhead
      simp [hcorr]
  · intro prev hhead hwrong hne
    have hbeq : (answerValue == problemAnswer) = false := by simp [hne]
    cases answers with
    | nil => simp at hhead
    | cons p rest =>
      simp only [List.head?, Option.some.injEq] at hhead
      subst hhead
      simp [hwrong, hbeq]
  · intro prev hone hwrong hc
    subst hone hc
    have hbeq : (answerValue == answerValue) = true := by simp
    simp only [List.head?, hwrong, hbeq, Bool.not_true, Bool.false_eq_true, if_false,
      List.tail]
    rw [submit_finish_answers]
    simp

/-- Witness for `submit_answer_single_row_spec` at a concrete input: a
wrong prior answer followed by a correct retry leaves exactly one row,
the retry, dealing `⌊75·2/3⌋ = 50`. -/
theorem submit_answer_single_row_spec_witness :
    (submit_answer ⟨.inProgress, 550, 550, 0, 0, none, none⟩ [⟨1000, false, 0⟩]
        42 42 1500 3 50 0).answers
      = [⟨1500, true, min (calculate_damage 1500 3 50 * 2 / 3) 550⟩] :=
  (submit_answer_single_row_spec ⟨.inProgress, 550, 550, 0, 0, none, none⟩
      [⟨1000, false, 0⟩] 42 42 1500 3 50 0 rfl (by decide)).2.2.2
    ⟨1000, false, 0⟩ rfl rfl rfl

theorem boss_hp_for_level_pos (level count : Nat) (hlevel : validBossLevel level)
    (hadap : is_adaptive_boss level = false) (hcount : 1 ≤ count) :
    0 < boss_hp_for_level level count 0 := by
  rcases hlevel with h0 | ⟨h1, h8⟩ | ⟨h100, h108⟩
  · subst h0; simp [is_adaptive_boss] at hadap
  · interval_cases level <;>
      simp [boss_hp_for_level, is_adaptive_boss, BOSS_HP_VALUES] <;> omega
  · simp [is_adaptive_boss] at hadap; omega

/-- `boss_hp_for_level` is positive for every level whenever the
adaptive fallback argument is positive (valid fixed tiers use the
ladder; level 0, 100+ and the out-of-range 9..99 all return the
fallback). -/
theorem boss_hp_for_level_pos_any (level count a : Nat) (ha : 0 < a)
    (hcount : 1 ≤ count) : 0 < boss_hp_for_level level count a := by
  unfold boss_hp_for_level
  split_ifs with h1 h2
  · exact ha
  · exact ha
  · have hne0 : level ≠ 0 := by
      intro h
      subst h
      simp [is_adaptive_boss] at h1
    have hge1 : 1 ≤ level := Nat.one_le_iff_ne_zero.mpr hne0
    have hle : level ≤ 8 := by
      simp [BOSS_HP_VALUES] at h2
      omega
    interval_cases level <;> simp [BOSS_HP_VALUES] <;> omega

theorem invAmended_end_raid (raid : Raid) (victory : Bool) (nowMicros : Int)
    (h : validBossLevel raid.bossLevel → 0 < raid.bossHp) :
    BossHpInvAmended (end_raid raid victory nowMicros) := by
  unfold end_raid BossHpInvAmended
  split_ifs with hend hvic <;> intro hv <;> have hpos := h hv <;>
    exact ⟨fun _ => hpos, fun h0 => absurd (show raid.bossHp = 0 from h0) (by omega)⟩

theorem invAmended_end_raid_victory (raid : Raid) (nowMicros : Int)
    (h1 : raid.state ≠ .victory) (h2 : raid.state ≠ .failed) :
    BossHpInvAmended (end_raid raid true nowMicros) := by
  unfold end_raid BossHpInvAmended
  rw [if_neg (by tauto)]
  simp

/-- The raid-row effect of `submit_finish`: unchanged, damaged but
alive, or killed (via `end_raid victory` in the same call). -/
theorem submit_finish_raid_cases (raid : Raid) (ans : List PlayerAnswer)
    (is_retry is_correct : Bool) (r grade critRoll : Nat) (nowMicros : Int) :
    (submit_finish raid ans is_retry is_correct r grade critRoll nowMicros).raid
        = raid ∨
    (∃ d, 0 < d ∧ d < raid.bossHp ∧
      (submit_finish raid ans is_retry is_correct r grade critRoll nowMicros).raid
        = { raid with bossHp := raid.bossHp - d }) ∨
    (0 < raid.bossHp ∧
      (submit_finish raid ans is_retry is_correct r grade critRoll nowMicros).raid
        = end_raid { raid with bossHp := 0 } true nowMicros) := by
  simp only [submit_finish]
  set d := (if is_correct = true then
      min (if is_retry = true then calculate_damage r grade critRoll * 2 / 3
           else calculate_damage r grade critRoll) raid.bossHp
      else 0) with hd
  have hdle : d ≤ raid.bossHp := by
    rw [hd]; split_ifs <;> omega
  split_ifs with h1 h2 h3
  · exact Or.inl rfl
  · refine Or.inr (Or.inr ⟨by omega, ?_⟩)
    dsimp only
    rw [h3]
  · refine Or.inr (Or.inl ⟨d, h1, by omega, ?_⟩)
    dsimp only
  · exact Or.inl rfl

/-- The raid-row effect of `submit_answer`: unchanged, safety-net
failure, damaged but alive, or killed with victory. -/
theorem submit_answer_raid_cases (raid : Raid) (answers : List PlayerAnswer)
    (problemAnswer answerValue response_ms grade critRoll : Nat) (nowMicros : Int) :
    (submit_answer raid answers problemAnswer answerValue response_ms grade
        critRoll nowMicros).raid = raid ∨
    (raid.state = .inProgress ∧
      (submit_answer raid answers problemAnswer answerValue response_ms grade
          critRoll nowMicros).raid = end_raid raid false nowMicros) ∨
    (raid.state = .inProgress ∧ ∃ d, 0 < d ∧ d < raid.bossHp ∧
      (submit_answer raid answers problemAnswer answerValue response_ms grade
          critRoll nowMicros).raid = { raid with bossHp := raid.bossHp - d }) ∨
    (raid.state = .inProgress ∧ 0 < raid.bossHp ∧
      (submit_answer raid answers problemAnswer answerValue response_ms grade
          critRoll nowMicros).raid
        = end_raid { raid with bossHp := 0 } true nowMicros) := by
  by_cases hst : raid.state = .inProgress
  · simp only [submit_answer]
    rw [if_neg (show ¬ raid.state ≠ RaidState.inProgress by simp [hst])]
    by_cases h180 : (nowMicros - raid.startedAtMicros).toNat / 1000000 ≥ 180
    · rw [if_pos h180]
      exact Or.inr (Or.inl ⟨hst, rfl⟩)
    · rw [if_neg h180]
      have hfin := fun ans retry =>
        submit_finish_raid_cases raid ans retry (answerValue == problemAnswer)
          (min (max response_ms 200) 60000) grade critRoll nowMicros
      cases answers with
      | nil =>
        simp only [List.head?]
        rcases hfin [] false with heq | ⟨d, hd1, hd2, heq⟩ | ⟨hpos, heq⟩
        · exact Or.inl heq
        · exact Or.inr (Or.inr (Or.inl ⟨hst, d, hd1, hd2, heq⟩))
        · exact Or.inr (Or.inr (Or.inr ⟨hst, hpos, heq⟩))
      | cons prev rest =>
        simp only [List.head?]
        by_cases h1 : prev.is_correct = true
        · rw [if_pos h1]
          exact Or.inl rfl
        · rw [if_neg h1]
          by_cases h2 : (!(answerValue == problemAnswer)) = true
          · rw [if_pos h2]
            exact Or.inl rfl
          · rw [if_neg h2]
            rcases hfin (prev :: rest).tail true with heq | ⟨d, hd1, hd2, heq⟩ | ⟨hpos, heq⟩
            · exact Or.inl heq
            · exact Or.inr (Or.inr (Or.inl ⟨hst, d, hd1, hd2, heq⟩))
            · exact Or.inr (Or.inr (Or.inr ⟨hst, hpos, heq⟩))
  · exact Or.inl (by simp only [submit_answer, if_pos hst])

/-- C1 counterexample, two failure modes.  (1) The claim exempts only
`Victory` and `Failed`, but `raid_again` on a victorious raid
(`boss_hp = 0`) moves it to `Rematch` without resetting the HP.
(2) `create_private_room` stores any client-supplied `boss_level`
unchecked (lib.rs:1474); with `boss_level = 9` (outside the ladder and
not adaptive), `start_raid` writes
`boss_hp = boss_hp_for_level(9, 2, 0) = 0` and commits
`state = Countdown` with `boss_hp = 0` (lib.rs:2044, 880-881). -/
theorem raid_again_breaks_boss_hp_invariant :
    (BossHpInv ⟨.victory, 0, 550, 0, 0, none, some 42⟩ ∧
      RaidStep ⟨.victory, 0, 550, 0, 0, none, some 42⟩
        ⟨.rematch, 0, 550, 0, 0, none, some 42⟩ ∧
      ¬ BossHpInv ⟨.rematch, 0, 550, 0, 0, none, some 42⟩) ∧
    (RaidInit ⟨.matchmaking, 1000, 1000, 9, 0, none, none⟩ ∧
      BossHpInv ⟨.matchmaking, 1000, 1000, 9, 0, none, none⟩ ∧
      RaidStep ⟨.matchmaking, 1000, 1000, 9, 0, none, none⟩
        ⟨.countdown, 0, 0, 9, 5, none, none⟩ ∧
      ¬ BossHpInv ⟨.countdown, 0, 0, 9, 5, none, none⟩) := by
  refine ⟨⟨by decide, ?_, by decide⟩,
    RaidInit.privateRoom 9 0, by decide, ?_, by decide⟩
  · have h := RaidStep.raidAgain ⟨.victory, 0, 550, 0, 0, none, some 42⟩
    simpa [raid_again] using h
  · have h := RaidStep.startRaid ⟨.matchmaking, 1000, 1000, 9, 0, none, none⟩
      0 2 5 (Or.inl rfl) (by omega)
      (fun hb => absurd hb (by decide)) (fun _ => by decide)
    simpa [start_raid_update] using h

/-- C1 amended: restricted to raids whose `boss_level` lies in the data
model's domain (client-supplied out-of-range levels 9..99 give
`start_raid`/`start_rematch` a zero ladder HP) and with `Rematch` also
exempt (a rematch reuses the raid row of a victory, keeping
`boss_hp = 0` until `start_raid` recomputes it), the invariant holds at
every raid creation and is preserved by every raid-mutating
transaction; and `submit_answer` transitions the raid to `Victory` in
the very transaction that brings `boss_hp` to 0. -/
theorem boss_hp_invariant_amended :
    (∀ r, RaidInit r → BossHpInvAmended r) ∧
    (∀ r r2, BossHpInvAmended r → RaidStep r r2 → BossHpInvAmended r2) ∧
    (∀ raid answers problemAnswer answerValue response_ms grade critRoll nowMicros,
      raid.state = .inProgress → 0 < raid.bossHp →
      (submit_answer raid answers problemAnswer answerValue response_ms grade
          critRoll nowMicros).raid.bossHp = 0 →
      (submit_answer raid answers problemAnswer answerValue response_ms grade
          critRoll nowMicros).raid.state = .victory) := by
  refine ⟨?_, ?_, ?_⟩
  · intro r hinit
    cases hinit with
    | privateRoom level nowMicros =>
      exact fun _ => ⟨fun _ => by norm_num, fun h0 => by simp at h0⟩
    | solo level hp adaptiveHp nowMicros hcontrib hhp =>
      have hpos : 0 < hp := by
        rw [hhp]
        exact boss_hp_for_level_pos_any level 1 adaptiveHp (by omega) (by omega)
      exact fun _ => ⟨fun _ => hpos, fun h0 => absurd (show hp = 0 from h0) (by omega)⟩
    | rematch level hp count nowMicros hcount hadapt hfixed =>
      intro hv
      have hpos : 0 < hp := by
        cases hb : is_adaptive_boss level with
        | true => have := hadapt hb; omega
        | false =>
          have heq := hfixed hb
          have := boss_hp_for_level_pos level count hv hb (by omega)
          omega
      exact ⟨fun _ => hpos, fun h0 => absurd (show hp = 0 from h0) (by omega)⟩
  · intro r r2 hinv hstep
    cases hstep with
    | startRaid hp count nowMicros hstate hcount hadapt hfixed =>
      intro hv
      have hpos : 0 < hp := by
        cases hb : is_adaptive_boss r.bossLevel with
        | true => have := hadapt hb; omega
        | false =>
          have heq := hfixed hb
          have := boss_hp_for_level_pos r.bossLevel count hv hb (by omega)
          omega
      exact ⟨fun _ => hpos,
        fun h0 => absurd (show hp = 0 from h0) (by omega)⟩
    | countdownComplete nowMicros =>
      unfold countdown_complete_raid
      split_ifs with hc
      · intro hv
        have hpos : 0 < r.bossHp := (hinv hv).1 (by simp [hc])
        exact ⟨fun _ => hpos, fun h0 => absurd (show r.bossHp = 0 from h0) (by omega)⟩
      · exact hinv
    | submitAnswer answers problemAnswer answerValue response_ms grade critRoll nowMicros =>
      rcases submit_answer_raid_cases r answers problemAnswer answerValue
          response_ms grade critRoll nowMicros with
        heq | ⟨hst, heq⟩ | ⟨hst, d, hd1, hd2, heq⟩ | ⟨hst, hpos, heq⟩
      · rw [heq]; exact hinv
      · rw [heq]
        exact invAmended_end_raid r false nowMicros
          (fun hv => (hinv hv).1 (by simp [hst]))
      · rw [heq]
        exact fun _ => ⟨fun _ => by simp; omega,
          fun h0 => absurd (show r.bossHp - d = 0 from h0) (by omega)⟩
      · rw [heq]
        exact invAmended_end_raid_victory _ nowMicros (by simp [hst]) (by simp [hst])
    | timeout nowMicros =>
      unfold check_raid_timeout
      cases hs : r.state with
      | inProgress =>
        exact invAmended_end_raid r false nowMicros
          (fun hv => (hinv hv).1 (by simp [hs]))
      | matchmaking => exact hinv
      | paused => exact hinv
      | victory => exact hinv
      | failed => exact hinv
      | rematch => exact hinv
      | countdown => exact hinv
    | pauseIfEmpty activeCount nowMicros =>
      unfold pause_raid_if_empty
      split_ifs with h1 h2
      · exact hinv
      · exact hinv
      · have hst : r.state = .inProgress := by
          by_contra hne
          exact h1 hne
        intro hv
        have hpos : 0 < r.bossHp := (hinv hv).1 (by simp [hst])
        exact ⟨fun _ => hpos, fun h0 => absurd (show r.bossHp = 0 from h0) (by omega)⟩
    | resume raid2 sched nowMicros h =>
      by_cases hst : r.state = .paused
      · rcases hps : r.pauseStartedAtMicros with _ | p
        · simp [resume_raid_from_pause, hst, hps] at h
        · simp only [resume_raid_from_pause, hst, hps, ne_eq, not_true_eq_false,
            if_false] at h
          split_ifs at h with hg1 hg2 hg3
          · cases h
            exact invAmended_end_raid r false nowMicros
              (fun hv => (hinv hv).1 (by simp [hst]))
          · cases h
            intro hv
            have hpos : 0 < r.bossHp := (hinv hv).1 (by simp [hst])
            exact ⟨fun _ => hpos, fun h0 => absurd (show r.bossHp = 0 from h0) (by omega)⟩
      · simp only [resume_raid_from_pause, if_pos hst, Except.ok.injEq,
          Prod.mk.injEq] at h
        rw [← h.1]
        exact hinv
    | raidAgain =>
      unfold raid_again
      split_ifs with h1
      · exact fun _ => ⟨fun hc => absurd rfl hc.2.2, fun _ => Or.inr rfl⟩
      · exact hinv
  · intro raid answers problemAnswer answerValue response_ms grade critRoll
      nowMicros hst hpos hzero
    rcases submit_answer_raid_cases raid answers problemAnswer answerValue
        response_ms grade critRoll nowMicros with
      heq | ⟨_, heq⟩ | ⟨_, d, hd1, hd2, heq⟩ | ⟨_, _, heq⟩
    · rw [heq] at hzero; omega
    · rw [heq, end_raid_bossHp] at hzero; omega
    · rw [heq] at hzero; simp at hzero; omega
    · rw [heq]
      rw [end_raid_state _ true nowMicros (by simp [hst]) (by simp [hst])]
      rfl

/-- Witness for `boss_hp_invariant_amended` at a concrete step: pausing
an `InProgress` raid with no active members preserves the invariant. -/
theorem boss_hp_invariant_amended_witness :
    BossHpInvAmended (pause_raid_if_empty ⟨.inProgress, 100, 100, 0, 0, none, none⟩ 0 5) :=
  boss_hp_invariant_amended.2.1 ⟨.inProgress, 100, 100, 0, 0, none, none⟩ _
    (by decide) (RaidStep.pauseIfEmpty ⟨.inProgress, 100, 100, 0, 0, none, none⟩ 0 5)

/-- A positive anti-repeat-adjusted weight means the candidate is
neither the exact last key nor operand-overlapping with it. -/
theorem anti_repeat_weight_pos_facts (key : FactKey) (w : ℚ)
    (window : List FactKey) (last : FactKey)
    (hlast : window.getLast? = some last)
    (hpos : 0 < anti_repeat_weight key w window) :
    key ≠ last ∧ shares_operand last key = false := by
  unfold anti_repeat_weight at hpos
  rw [hlast] at hpos
  have inner : ∀ x : ℚ,
      0 < (if key = last then 0
           else if shares_operand last key = true then 0 else x) →
      key ≠ last ∧ shares_operand last key = false := by
    intro x hx
    by_cases hk : key = last
    · rw [if_pos hk] at hx
      norm_num at hx
    · rw [if_neg hk] at hx
      by_cases hs : shares_operand last key = true
      · rw [if_pos hs] at hx
        norm_num at hx
      · exact ⟨hk, by simpa using hs⟩
  by_cases hm : key ∈ window
  · rw [if_pos hm, ite_mul, ite_mul, zero_mul] at hpos
    exact inner _ hpos
  · rw [if_neg hm] at hpos
    exact inner _ hpos

/-- Every mastery-derived candidate has positive weight and respects
the exact-repeat and operand-overlap exclusions. -/
theorem mastery_candidates_aux (env : GenEnv) (window : List FactKey) :
    ∀ (facts : List (FactKey × FactMastery)) (acc : List (FactKey × ℚ)),
      (∀ p ∈ acc, 0 < p.2 ∧ ∀ last, window.getLast? = some last →
        p.1 ≠ last ∧ shares_operand last p.1 = false) →
      ∀ p ∈ facts.foldl
          (fun acc fk =>
            if fk.1 ∈ env.allowedFacts then
              if anti_repeat_weight fk.1
                  (calculate_fact_weight fk.2 env.nowMicros) window > 0 then
                acc ++ [(fk.1,
                  anti_repeat_weight fk.1
                    (calculate_fact_weight fk.2 env.nowMicros) window)]
              else acc
            else acc)
          acc,
        0 < p.2 ∧ ∀ last, window.getLast? = some last →
          p.1 ≠ last ∧ shares_operand last p.1 = false := by
  intro facts
  induction facts with
  | nil =>
    intro acc hacc
    simpa using hacc
  | cons fk rest ih =>
    intro acc hacc
    rw [List.foldl_cons]
    apply ih
    intro p hp
    by_cases h1 : fk.1 ∈ env.allowedFacts
    · rw [if_pos h1] at hp
      by_cases h2 : anti_repeat_weight fk.1
          (calculate_fact_weight fk.2 env.nowMicros) window > 0
      · rw [if_pos h2] at hp
        rcases List.mem_append.mp hp with hin | hnew
        · exact hacc p hin
        · have hpeq : p = (fk.1, anti_repeat_weight fk.1
              (calculate_fact_weight fk.2 env.nowMicros) window) := by
            simpa using hnew
          subst hpeq
          exact ⟨h2, fun last hlast =>
            anti_repeat_weight_pos_facts fk.1 _ window last hlast h2⟩
      · rw [if_neg h2] at hp
        exact hacc p hp
    · rw [if_neg h1] at hp
      exact hacc p hp

theorem mastery_candidates_mem (env : GenEnv) (window : List FactKey) :
    ∀ p ∈ mastery_candidates env window,
      0 < p.2 ∧ ∀ last, window.getLast? = some last →
        p.1 ≠ last ∧ shares_operand last p.1 = false := by
  intro p hp
  exact mastery_candidates_aux env window env.playerFacts [] (by simp) p hp

/-- Every injected candidate either came from the starting list or is a
fresh `(key, 10)` whose key is outside the recent window and respects
the exclusions. -/
theorem inject_candidates_aux (env : GenEnv) (window : List FactKey)
    (start : List (FactKey × ℚ)) :
    ∀ (keys : List FactKey) (acc : List (FactKey × ℚ)),
      (∀ p ∈ acc, p ∈ start ∨
        (p.2 = 10 ∧ p.1 ∉ window ∧ ∀ last, window.getLast? = some last →
          p.1 ≠ last ∧ shares_operand last p.1 = false)) →
      ∀ p ∈ keys.foldl
          (fun acc key =>
            if acc.any (fun p => p.1 = key) then acc
            else
              if (match window.getLast? with
                  | some last => key = last || shares_operand last key
                  | none => false) then acc
              else if key ∈ window then acc
              else acc ++ [(key, 10)])
          acc,
        p ∈ start ∨
          (p.2 = 10 ∧ p.1 ∉ window ∧ ∀ last, window.getLast? = some last →
            p.1 ≠ last ∧ shares_operand last p.1 = false) := by
  intro keys
  induction keys with
  | nil =>
    intro acc hacc
    simpa using hacc
  | cons key rest ih =>
    intro acc hacc
    rw [List.foldl_cons]
    apply ih
    intro p hp
    split_ifs at hp with h1 h2 h3
    · exact hacc p hp
    · exact hacc p hp
    · exact hacc p hp
    · rcases List.mem_append.mp hp with hin | hnew
      · exact hacc p hin
      · have hpeq : p = (key, 10) := by simpa using hnew
        subst hpeq
        refine Or.inr ⟨rfl, h3, fun last hlast => ?_⟩
        rw [hlast] at h2
        simpa using h2

theorem inject_candidates_mem (env : GenEnv) (window : List FactKey)
    (start : List (FactKey × ℚ)) :
    ∀ p ∈ inject_candidates env window start,
      p ∈ start ∨
        (p.2 = 10 ∧ p.1 ∉ window ∧ ∀ last, window.getLast? = some last →
          p.1 ≠ last ∧ shares_operand last p.1 = false) := by
  intro p hp
  exact inject_candidates_aux env window start env.allowedFacts start
    (fun q hq => Or.inl hq) p hp

/-- `select_walk` only returns keys from the candidate list. -/
theorem select_walk_mem :
    ∀ (facts : List (FactKey × ℚ)) (rv cum : ℚ) (key : FactKey),
      select_walk facts rv cum = some key → ∃ w, (key, w) ∈ facts := by
  intro facts
  induction facts with
  | nil =>
    intro rv cum key h
    cases h
  | cons p rest ih =>
    intro rv cum key h
    simp only [select_walk] at h
    split_ifs at h with hle
    · cases h
      exact ⟨p.2, by simp⟩
    · rcases ih rv (cum + p.2) key h with ⟨w, hw⟩
      exact ⟨w, List.mem_cons_of_mem p hw⟩

/-- `weighted_random_selection` only returns keys from the candidate
list. -/
theorem weighted_random_selection_mem (facts : List (FactKey × ℚ))
    (seed : Nat) (key : FactKey)
    (h : weighted_random_selection facts seed = some key) :
    ∃ w, (key, w) ∈ facts := by
  unfold weighted_random_selection at h
  cases facts with
  | nil => cases h
  | cons p rest =>
    simp only at h
    split_ifs at h with htot
    · rcases Option.map_eq_some'.mp h with ⟨q, hq, hkey⟩
      have hmem := List.get?_mem hq
      exact ⟨q.2, by rw [← hkey]; simpa using hmem⟩
    · rcases hsw : select_walk (p :: rest)
          ((((seed * 2654435761) % 2 ^ 64 % 10000 : Nat) : ℚ) / 10000 *
            ((p :: rest).map (fun p => p.2)).sum) 0 with _ | k
      · rw [hsw] at h
        rcases Option.map_eq_some'.mp h with ⟨q, hq, hkey⟩
        have hmem : q ∈ p :: rest := by
          rcases List.mem_getLast?_eq_getLast (Option.mem_def.mpr hq) with ⟨hne, heq⟩
          rw [heq]
          exact List.getLast_mem hne
        exact ⟨q.2, by rw [← hkey]; simpa using hmem⟩
      · rw [hsw] at h
        cases h
        exact select_walk_mem _ _ _ _ hsw

/-- C7 counterexample: the claim quantifies over every problem
selection, but the uniform fallback in `generate_problem` (taken when
the adaptive path yields no candidate) has no anti-repeat: with allowed
facts `{7×8}` and a recent window ending in `7×8`, the next selection
is `7×8` again — the exact last key. -/
theorem fallback_repeats_last_fact :
    generate_problem 0 ⟨some 3, [⟨7, 8, .multiply⟩], [], 1⟩ [⟨7, 8, .multiply⟩]
        = ((7, 8, .multiply), [⟨7, 8, .multiply⟩, ⟨7, 8, .multiply⟩]) ∧
      ([(⟨7, 8, .multiply⟩ : FactKey)].getLast? = some ⟨7, 8, .multiply⟩) := by
  constructor <;> rfl

/-- C7 amended (restricted to the adaptive selector): whenever
`generate_adaptive_problem` returns a selection and the recent window is
non-empty, the selected key is neither the exact last key nor shares an
operand with it (their weights are zeroed); a mastery candidate
anywhere in the 10-entry window that survives those exclusions has its
weight multiplied by exactly `0.1`; and injection never adds a key that
is already in the window.  The uniform fallback path of
`generate_problem` (no weighted candidate, or missing player row) has
no anti-repeat constraint. -/
theorem adaptive_selection_anti_repeat (sequence : Nat) (env : GenEnv)
    (window : List FactKey) (last : FactKey)
    (hlast : window.getLast? = some last) :
    (∀ result key updated,
      generate_adaptive_problem sequence env window = some (result, key, updated) →
      key ≠ last ∧ shares_operand last key = false) ∧
    (∀ key w, key ∈ window → key ≠ last → shares_operand last key = false →
      anti_repeat_weight key w window = w * (1 / 10)) ∧
    (∀ start p, p ∈ inject_candidates env window start →
      p ∈ start ∨ p.1 ∉ window) := by
  refine ⟨?_, ?_, ?_⟩
  · intro result key updated hgen
    unfold generate_adaptive_problem at hgen
    rcases hg : env.playerGrade with _ | g
    · simp only [hg] at hgen
      exact Option.noConfusion hgen
    · simp only [hg] at hgen
      rcases hsel : weighted_random_selection
          (inject_candidates env window (mastery_candidates env window))
          ((env.nowMicros + sequence) % 2 ^ 64) with _ | selected <;>
        rw [hsel] at hgen
      · cases hgen
      · have hkey : key = selected := by
          simp only [parse_fact_key, Option.some.injEq, Prod.mk.injEq] at hgen
          exact hgen.2.1.symm
        subst hkey
        rcases weighted_random_selection_mem _ _ _ hsel with ⟨w, hw⟩
        rcases inject_candidates_mem env window _ _ hw with hin | ⟨_, _, hfacts⟩
        · exact (mastery_candidates_mem env window _ hin).2 last hlast
        · exact hfacts last hlast
  · intro key w hmem hne hshares
    simp only [anti_repeat_weight, hlast, if_neg hne, hshares, Bool.false_eq_true,
      if_false, if_pos hmem]
  · intro start p hp
    rcases inject_candidates_mem env window start p hp with hin | ⟨_, hnotin, _⟩
    · exact Or.inl hin
    · exact Or.inr hnotin

/-- Witness for `adaptive_selection_anti_repeat` at a concrete input:
the key `2+3`, sitting in a window ending in `7×8`, survives the
exclusions and has its weight 70 penalised to exactly `70 × 0.1`. -/
theorem adaptive_selection_anti_repeat_witness :
    anti_repeat_weight ⟨2, 3, .add⟩ 70 [⟨2, 3, .add⟩, ⟨7, 8, .multiply⟩]
      = 70 * (1 / 10) :=
  (adaptive_selection_anti_repeat 0 ⟨some 3, [], [], 0⟩
      [⟨2, 3, .add⟩, ⟨7, 8, .multiply⟩] ⟨7, 8, .multiply⟩ rfl).2.1
    ⟨2, 3, .add⟩ 70 (by decide) (by decide) (by decide)

end MathRaiders
